import Mathlib

/-!
Verification of the algorithm base class of temporaer/ConvLab
(`convlab/agent/algorithm/base.py`) against its natural-language specification.

The file shallowly embeds the lifecycle manager (save / load / post_init_nets),
the evaluation-mode training suppression, the multi-body dispatch operations
(space_act / space_sample / space_train / space_update) and the spec-reading
part of the constructor. External collaborators that are not part of the
repository snapshot (net_util, the aeb-space container allocator, the
nanflat helpers, concat/torch batch conversion) are modelled from the
specification; each such definition says so in its doc comment. Python
builtins (str.endswith, str.replace, dict lookup, truthiness) are embedded
directly with their Python semantics.
-/

namespace ConvLab

/-- Numeric values as they flow through the embedded code: either the np.nan
sentinel or an ordinary number. -/
inductive NumVal
  | nan
  | num (n : Int)
  deriving DecidableEq, Repr

/-- Python exceptions the embedded code can raise. -/
inductive PyError
  | keyError
  | typeError
  | indexError
  | assertionError
  | notImplementedError
  deriving DecidableEq, Repr

/-- Embedding of Python str.endswith: the pattern is a suffix of the string. -/
def strEndsWith (s pat : String) : Bool := pat.data.isSuffixOf s.data

/-- Fuel-driven loop for `pyReplace`: scan left to right, replacing each
non-overlapping occurrence of `pat` by `repl`. The fuel (initially the length
of the string) only makes the recursion structural; it never runs out. -/
def replLoop (pat repl : List Char) : Nat → List Char → List Char
  | _, [] => []
  | 0, s => s
  | Nat.succ n, c :: rest =>
      if pat.isPrefixOf (c :: rest) then repl ++ replLoop pat repl n (rest.drop (pat.length - 1))
      else c :: replLoop pat repl n rest

/-- Embedding of Python str.replace for a non-empty pattern: replace every
non-overlapping occurrence, scanning left to right. -/
def pyReplace (s pat repl : String) : String :=
  ⟨replLoop pat.data repl.data s.data.length s.data⟩

/-! ## Lifecycle manager: save, load, post_init_nets -/

/-- View of one instance-attribute value of the algorithm as the load loop
sees it: `end_val = some v` when the Python object has an `end_val` attribute
with value `v` (a decay scheduler), and `none` when `hasattr(v, end_val)`
fails, as it does for every non-scheduler attribute value. -/
structure Sched where
  end_val : Option NumVal
  deriving DecidableEq, Repr

/-- State of an Algorithm instance as relevant to save / load / post_init_nets.
`net_names` is `some names` exactly when the attribute exists. `vars` is the
instance-attribute dictionary `vars(self)` (name, value view). `body` is the
attribute dictionary of the bound body object `self.body`. -/
structure AlgLC where
  net_names : Option (List String)
  vars : List (String × Sched)
  body : List (String × NumVal)
  deriving DecidableEq, Repr

/-- Embedding of Python getattr on the body object: first binding of the name. -/
def getattrB (l : List (String × NumVal)) (k : String) : Option NumVal :=
  match l with
  | [] => none
  | p :: rest => if p.1 = k then some p.2 else getattrB rest k

/-- Embedding of Python setattr on the body object: overwrite the first binding
of the name, or append a new binding. -/
def setattrB (l : List (String × NumVal)) (k : String) (v : NumVal) : List (String × NumVal) :=
  match l with
  | [] => [(k, v)]
  | p :: rest => if p.1 = k then (k, v) :: rest else p :: setattrB rest k v

/-- Record of one call to the external net persistence collaborator
(net_util), with the arguments the code passes it. -/
inductive NetCall
  | save_algorithm (alg : AlgLC) (ckpt : Option String)
  | load_algorithm (alg : AlgLC)
  deriving DecidableEq, Repr

/-- Result of a lifecycle operation: the updated algorithm state, the calls
made to the net persistence collaborator, and the log messages emitted. -/
structure LCResult where
  alg : AlgLC
  calls : List NetCall
  logs : List String
  deriving DecidableEq, Repr

def schedSuffix : String := "_scheduler"

def emptyString : String := ""

def noSaveMsg : String := "No net declared in self.net_names in init_nets(); no models to save."

def noLoadMsg : String := "No net declared in self.net_names in init_nets(); no models to load."

def loadedMsg : String := "Loaded algorithm models for lab_mode: "

def initializedMsg : String := "Initialized algorithm models for lab_mode: "

/-- Embedding of Algorithm.save from base.py: with no `net_names` attribute it
only logs; otherwise it delegates to net_util.save_algorithm, passing the
whole algorithm instance and the checkpoint tag. -/
def save (alg : AlgLC) (ckpt : Option String) : LCResult :=
  match alg.net_names with
  | none => ⟨alg, [], [noSaveMsg]⟩
  | some _ => ⟨alg, [NetCall.save_algorithm alg ckpt], []⟩

/-- One iteration of the decay-variable loop in Algorithm.load: for an
instance attribute `(k, v)`, if `k` ends with the scheduler suffix and `v`
has an `end_val`, set the body attribute named `k.replace(suffix, empty)`
to that terminal value; otherwise do nothing. -/
def loadStep (b : List (String × NumVal)) (p : String × Sched) : List (String × NumVal) :=
  if strEndsWith p.1 schedSuffix then
    match p.2.end_val with
    | some v => setattrB b (pyReplace p.1 schedSuffix emptyString) v
    | none => b
  else b

/-- Embedding of Algorithm.load from base.py: with no `net_names` attribute it
only logs, otherwise it delegates to net_util.load_algorithm; then, in either
case, it walks `vars(self)` and pins every decayable variable on the body to
the terminal value of its scheduler. -/
def load (alg : AlgLC) : LCResult :=
  let calls : List NetCall :=
    match alg.net_names with
    | none => []
    | some _ => [NetCall.load_algorithm alg]
  let logs : List String :=
    match alg.net_names with
    | none => [noLoadMsg]
    | some _ => []
  ⟨⟨alg.net_names, alg.vars, alg.vars.foldl loadStep alg.body⟩, calls, logs⟩

/-- Embedding of Algorithm.post_init_nets from base.py: assert that
`net_names` exists (AssertionError otherwise); in an evaluation-like lab mode
log and load the models, otherwise only log. `in_eval` is the value of
util.in_eval_lab_modes() and `lab_mode` the string util.get_lab_mode(). -/
def post_init_nets (alg : AlgLC) (in_eval : Bool) (lab_mode : String) : Except PyError LCResult :=
  match alg.net_names with
  | none => Except.error PyError.assertionError
  | some _ =>
    if in_eval then
      let r := load alg
      Except.ok ⟨r.alg, r.calls, (loadedMsg ++ lab_mode) :: r.logs⟩
    else
      Except.ok ⟨alg, [], [initializedMsg ++ lab_mode]⟩

/-! ## Evaluation-mode training suppression -/

/-- Embedding of the abstract-level Algorithm.train body from base.py: in an
evaluation lab mode return the np.nan sentinel, otherwise raise
NotImplementedError. `in_eval` is the value of util.in_eval_lab_modes(). -/
def train (in_eval : Bool) : Except PyError NumVal :=
  if in_eval then Except.ok NumVal.nan else Except.error PyError.notImplementedError

/-- Modelled from the spec: the concrete algorithm subclasses are not part of
the repository snapshot (only the abstract base class is); the spec states
that evaluation-mode suppression is a cross-cutting contract enforced at the
abstract level for every concrete subclass, so a concrete train call goes
through the abstract-level check before its own training step `impl` runs. -/
def subclass_train (in_eval : Bool) (impl : Unit → Except PyError NumVal) : Except PyError NumVal :=
  if in_eval then Except.ok NumVal.nan else impl ()

/-! ## Multi-body dispatch -/

/-- Memory object of a body, reduced to the only field this code reads. -/
structure Memory where
  is_episodic : Bool
  deriving DecidableEq, Repr

/-- One environment body. `e` and `b` are its (environment, body) coordinate
fields; `bid` distinguishes otherwise identical bodies. -/
structure Body where
  e : Nat
  b : Nat
  memory : Memory
  bid : Nat
  deriving DecidableEq, Repr

/-- The structured body collection `agent.body_a` of the owning agent: a
2-dimensional array indexed by (environment, body) whose empty (np.nan) cells
are `none`. -/
structure Agent where
  body_a : List (List (Option Body))
  deriving DecidableEq, Repr

/-- Read the (e, b) cell of a 2-dimensional data container; reads outside the
container give `none`. -/
def getCell (d : List (List (Option α))) (e b : Nat) : Option α :=
  (d.getD e []).getD b none

/-- Write the (e, b) cell of a 2-dimensional data container; writes outside
the container leave it unchanged (the embedded code only writes at enumerated
in-range coordinates). -/
def setCell : List (List (Option α)) → Nat → Nat → α → List (List (Option α))
  | [], _, _, _ => []
  | r :: rs, 0, b, v => r.set b (some v) :: rs
  | r :: rs, Nat.succ e, b, v => r :: setCell rs e b v

/-- Modelled from the spec: aeb_space.init_data_s (the aeb-space container
class is not part of the repository snapshot) allocates, per requested name,
an empty data container shaped like the (environment x body) space, every
cell holding the no-value sentinel (np.nan, here `none`). -/
def init_data_s (ag : Agent) : List (List (Option α)) :=
  ag.body_a.map (fun row => row.map (fun _ => none))

/-- Helper for `ndenumerate_nonan`: enumerate the non-empty cells of row `e`
starting at column index `b`. -/
def rowEnum (e : Nat) : Nat → List (Option Body) → List ((Nat × Nat) × Body)
  | _, [] => []
  | b, some body :: rest => ((e, b), body) :: rowEnum e (b + 1) rest
  | b, none :: rest => rowEnum e (b + 1) rest

/-- Helper for `ndenumerate_nonan`: enumerate rows starting at row index `e`. -/
def ndenumFrom : Nat → List (List (Option Body)) → List ((Nat × Nat) × Body)
  | _, [] => []
  | e, row :: rows => rowEnum e 0 row ++ ndenumFrom (e + 1) rows

/-- Modelled from the spec: util.ndenumerate_nonan (not part of the repository
snapshot) enumerates the non-empty cells of the structured body array in
row-major order together with their (e, b) coordinates. -/
def ndenumerate_nonan (g : List (List (Option Body))) : List ((Nat × Nat) × Body) :=
  ndenumFrom 0 g

/-- The flattened body list `agent.nanflat_body_a` of the owning agent
(external attribute, computed by util.nanflatten): the bodies of `body_a` in
row-major order with np.nan cells dropped. -/
def Agent.nanflat_body_a (ag : Agent) : List Body :=
  (ag.body_a.map (fun row => row.filterMap id)).flatten

/-- Embedding of Algorithm.nanflat_to_data_a from base.py: allocate a fresh
container for the given semantic name, then write each flattened body datum
at the (e, b) coordinate fields of that body. -/
def nanflat_to_data_a (ag : Agent) (data_name : String) (nanflat_data_a : List α) :
    List (List (Option α)) :=
  (ag.nanflat_body_a.zip nanflat_data_a).foldl
    (fun d p => setCell d p.1.e p.1.b p.2) (init_data_s ag)

/-- Embedding of Algorithm.space_act from base.py. `act` stands for the
concrete act method as a function of the currently bound body and of the
state read from the state container at the enumerated coordinate; the
returned `Body` is the value of `self.body` after the call (restored to the
first flattened body; IndexError when there is none). -/
def space_act (ag : Agent) (act : Body → Option σ → α) (state_a : List (List (Option σ))) :
    Except PyError (List (List (Option α)) × Body) :=
  let action_a :=
    (ndenumerate_nonan ag.body_a).foldl
      (fun d p => setCell d p.1.1 p.1.2 (act p.2 (getCell state_a p.1.1 p.1.2)))
      (init_data_s ag)
  match ag.nanflat_body_a with
  | [] => Except.error PyError.indexError
  | b0 :: _ => Except.ok (action_a, b0)

/-- Modelled from the spec: util.concat_batches (not part of the repository
snapshot) concatenates the per-body batches into one combined batch,
preserving per-body order. A batch is modelled as its list of entries. -/
def concat_batches (batches : List (List ε)) : List ε := batches.flatten

/-- Record of a batch converted to the torch tensor representation: the
combined data, the target device, and the episodic flag used. -/
structure TorchBatch (ε δ : Type) where
  data : List ε
  device : δ
  episodic : Bool
  deriving DecidableEq, Repr

/-- Modelled from the spec: util.to_torch_batch (not part of the repository
snapshot) converts a combined batch to the tensor representation for the
given device and episodic flag. -/
def to_torch_batch (batch : List ε) (device : δ) (is_episodic : Bool) : TorchBatch ε δ :=
  ⟨batch, device, is_episodic⟩

/-- Embedding of Algorithm.space_sample from base.py: sample one batch per
flattened body in order, restore `self.body` to the first flattened body
(IndexError when there is none), concatenate, and convert using the shared
net device and the episodic flag of the memory of the restored body. -/
def space_sample (ag : Agent) (sample : Body → List ε) (net_device : δ) :
    Except PyError (TorchBatch ε δ × Body) :=
  let batches := ag.nanflat_body_a.map sample
  match ag.nanflat_body_a with
  | [] => Except.error PyError.indexError
  | b0 :: _ =>
    Except.ok (to_torch_batch (concat_batches batches) net_device b0.memory.is_episodic, b0)

def lossName : String := "loss"

def exploreVarName : String := "explore_var"

/-- Result of space_train: the bare np.nan returned in evaluation modes, or
the structured loss container. -/
inductive TrainOut
  | nan
  | data (loss_a : List (List (Option NumVal)))
  deriving DecidableEq, Repr

/-- Embedding of Algorithm.space_train from base.py. `train_one` stands for
the concrete train method as a function of the currently bound body;
`self_body` is the value of `self.body` on entry (the evaluation-mode early
return leaves it untouched); the returned `Body` is `self.body` after the
call. -/
def space_train (ag : Agent) (in_eval : Bool) (train_one : Body → NumVal) (self_body : Body) :
    Except PyError (TrainOut × Body) :=
  if in_eval then Except.ok (TrainOut.nan, self_body)
  else
    let losses := ag.nanflat_body_a.map train_one
    match ag.nanflat_body_a with
    | [] => Except.error PyError.indexError
    | b0 :: _ => Except.ok (TrainOut.data (nanflat_to_data_a ag lossName losses), b0)

/-- Embedding of Algorithm.space_update from base.py. `update_one` stands for
the concrete update method as a function of the currently bound body. -/
def space_update (ag : Agent) (update_one : Body → NumVal) :
    Except PyError (List (List (Option NumVal)) × Body) :=
  let explore_vars := ag.nanflat_body_a.map update_one
  match ag.nanflat_body_a with
  | [] => Except.error PyError.indexError
  | b0 :: _ => Except.ok (nanflat_to_data_a ag exploreVarName explore_vars, b0)

/-! ## Constructor spec reading -/

/-- Python values occurring in agent specs. -/
inductive SpecVal
  | pynone
  | pybool (b : Bool)
  | pyint (n : Int)
  | pystr (s : String)
  | pydict (entries : List (String × SpecVal))

/-- Python truthiness of a spec value. -/
def SpecVal.truthy : SpecVal → Bool
  | .pynone => false
  | .pybool b => b
  | .pyint n => n != 0
  | .pystr s => s != emptyString
  | .pydict entries => !entries.isEmpty

/-- Embedding of Python dict lookup on a spec dictionary. -/
def dictGet (entries : List (String × SpecVal)) (k : String) : Option SpecVal :=
  match entries with
  | [] => none
  | p :: rest => if p.1 = k then some p.2 else dictGet rest k

/-- Embedding of Python subscription spec[key]: KeyError when the key is
missing, TypeError when the value is not a dictionary. -/
def pySubscript (v : SpecVal) (k : String) : Except PyError SpecVal :=
  match v with
  | .pydict entries =>
    match dictGet entries k with
    | some z => Except.ok z
    | none => Except.error PyError.keyError
  | _ => Except.error PyError.typeError

/-- Embedding of ps.get(spec, key): pydash get, Python None when missing. -/
def psGet (entries : List (String × SpecVal)) (k : String) : SpecVal :=
  (dictGet entries k).getD SpecVal.pynone

/-- Spec-derived attributes set by Algorithm.__init__. `net_spec` is always
set (Python None modelled as `SpecVal.pynone`); `memory_spec = none` means
the attribute was never set, so reading it raises AttributeError. -/
structure AlgInit where
  algorithm_spec : SpecVal
  name : SpecVal
  net_spec : SpecVal
  memory_spec : Option SpecVal

def algorithmKey : String := "algorithm"

def nameKey : String := "name"

def netKey : String := "net"

def memoryKey : String := "memory"

/-- Embedding of the spec-reading part of Algorithm.__init__ from base.py
(the subsequent init_algorithm_params / init_nets hooks are abstract methods
of the subclasses and out of scope here). -/
def algorithmInit (agent_spec : List (String × SpecVal)) : Except PyError AlgInit :=
  match dictGet agent_spec algorithmKey with
  | none => Except.error PyError.keyError
  | some algorithm_spec =>
    match pySubscript algorithm_spec nameKey with
    | Except.error err => Except.error err
    | Except.ok nm =>
      Except.ok ⟨algorithm_spec, nm,
        (dictGet agent_spec netKey).getD SpecVal.pynone,
        if (psGet agent_spec memoryKey).truthy then dictGet agent_spec memoryKey else none⟩

/-! ## Infrastructure: grid shapes, writes, enumeration -/

/-- Row lengths of a 2-dimensional data container. -/
def gridShape (d : List (List (Option α))) : List Nat := d.map List.length

/-- The (e, b) coordinate addresses an actual cell of the container. -/
def inRange (d : List (List (Option α))) (e b : Nat) : Prop :=
  b < (gridShape d).getD e 0

/-- Sequence of raw cell writes, as performed by the dispatch loops. -/
def writeList (d : List (List (Option α))) (ws : List ((Nat × Nat) × α)) :
    List (List (Option α)) :=
  ws.foldl (fun d p => setCell d p.1.1 p.1.2 p.2) d

/-- Coherence of the external agent structure: every body stored in the
structured body array carries its own (e, b) coordinates in its `e` and `b`
fields. The surrounding framework establishes this when it builds the space. -/
def Agent.coherent (ag : Agent) : Prop :=
  ∀ x ∈ ndenumerate_nonan ag.body_a, x.2.e = x.1.1 ∧ x.2.b = x.1.2

/-- Names of the body attributes the load loop writes: one for each instance
attribute whose name ends with the scheduler suffix and whose value has an
end_val. -/
def schedTargets (vs : List (String × Sched)) : List String :=
  (vs.filter (fun p => strEndsWith p.1 schedSuffix && p.2.end_val.isSome)).map
    (fun p => pyReplace p.1 schedSuffix emptyString)

/-! ## Concrete instances used by witnesses and counterexamples -/

def memA : Memory := ⟨true⟩

def memB : Memory := ⟨false⟩

/-- Body at coordinate (0, 0) with an episodic memory. -/
def bodyA : Body := ⟨0, 0, memA, 0⟩

/-- Body at coordinate (0, 1) with a non-episodic memory. -/
def bodyB : Body := ⟨0, 1, memB, 1⟩

/-- Two-body agent: one environment row holding two bodies and one empty
(np.nan) coordinate at (0, 2). -/
def agentAB : Agent := ⟨[[some bodyA, some bodyB, none]]⟩

def epsSchedSchedName : String := "eps_scheduler_scheduler"

def epsSchedName : String := "eps_scheduler"

def epsName : String := "eps"

def lrName : String := "lr"

def lrSchedName : String := "lr_scheduler"

def qNetName : String := "q_net"

def ckptTag : String := "best"

def evalLabMode : String := "eval"

def devCuda : String := "cuda"

/-- Algorithm instance with no `net_names` attribute. -/
def algNoNets : AlgLC := ⟨none, [], []⟩

/-- Algorithm instance with one declared net and no instance attributes of
interest. -/
def algWithNets : AlgLC := ⟨some [qNetName], [], []⟩

/-- Algorithm whose only scheduler-suffixed attribute repeats the suffix, so
Python replace strips both occurrences; the body already has attributes named
like both candidate targets. -/
def algSchedCex : AlgLC :=
  ⟨none, [(epsSchedSchedName, ⟨some (NumVal.num 7)⟩)],
    [(epsSchedName, NumVal.num 1), (epsName, NumVal.num 2)]⟩

/-- Algorithm with an ordinary decay scheduler `lr_scheduler` whose terminal
value is 7, a body attribute `lr` equal to 1 before load, and an unrelated
body attribute `eps`. -/
def algSchedOk : AlgLC :=
  ⟨none, [(lrSchedName, ⟨some (NumVal.num 7)⟩)],
    [(lrName, NumVal.num 1), (epsName, NumVal.num 5)]⟩

/-- State container used by the C6 witness. -/
def stateAB : List (List (Option Nat)) := [[some 10, some 20, some 30]]

/-- Act function used by the C6 witness: reads both the bound body and the
state. -/
def actBid : Body → Option Nat → Nat := fun body s => body.bid * 100 + s.getD 0

/-- Single-body agent used by the C6 witness, with its body at (0, 1). -/
def agentSingle : Agent := ⟨[[none, some bodyB]]⟩

/-- Per-body sampler used by the C8 witness: body 0 yields a batch of 3
entries, any other body a batch of 5. -/
def sampleC8 : Body → List Int := fun body =>
  if body.bid = 0 then [1, 2, 3] else [4, 5, 6, 7, 8]

def dqnName : String := "dqn"

/-- Agent spec for the C9 witness: an algorithm name, no net key, and a
memory key holding a falsy value (an empty dict). -/
def specC9 : List (String × SpecVal) :=
  [(algorithmKey, SpecVal.pydict [(nameKey, SpecVal.pystr dqnName)]),
   (memoryKey, SpecVal.pydict [])]

/-- Constructor result for the C9 witness: net_spec is set to Python None,
memory_spec is never set. -/
def algInitC9 : AlgInit :=
  ⟨SpecVal.pydict [(nameKey, SpecVal.pystr dqnName)], SpecVal.pystr dqnName,
    SpecVal.pynone, none⟩

theorem getCell_nil (e b : Nat) : getCell ([] : List (List (Option α))) e b = none := by
  simp [getCell]

theorem getCell_cons_zero (r : List (Option α)) (rs : List (List (Option α))) (b : Nat) :
    getCell (r :: rs) 0 b = r.getD b none := rfl

theorem getCell_cons_succ (r : List (Option α)) (rs : List (List (Option α))) (e b : Nat) :
    getCell (r :: rs) (e + 1) b = getCell rs e b := rfl

theorem setCell_shape (d : List (List (Option α))) (e b : Nat) (v : α) :
    gridShape (setCell d e b v) = gridShape d := by
  induction d generalizing e with
  | nil => rfl
  | cons r rs ih =>
    cases e with
    | zero => simp [setCell, gridShape]
    | succ e =>
      simp only [setCell, gridShape, List.map_cons]
      exact congrArg (r.length :: ·) (ih e)

theorem getCell_setCell_self (d : List (List (Option α))) (e b : Nat) (v : α)
    (h : inRange d e b) : getCell (setCell d e b v) e b = some v := by
  induction d generalizing e with
  | nil => simp [inRange, gridShape] at h
  | cons r rs ih =>
    cases e with
    | zero =>
      simp only [inRange, gridShape, List.map_cons, List.getD_cons_zero] at h
      simp only [setCell, getCell_cons_zero]
      rw [List.getD_eq_getElem?_getD, List.getElem?_set_self (by simpa using h)]
      rfl
    | succ e =>
      simp only [inRange, gridShape, List.map_cons, List.getD_cons_succ] at h
      simpa only [setCell, getCell_cons_succ] using ih e h

theorem getCell_setCell_other (d : List (List (Option α))) (e b e' b' : Nat) (v : α)
    (h : (e', b') ≠ (e, b)) : getCell (setCell d e b v) e' b' = getCell d e' b' := by
  induction d generalizing e e' with
  | nil => rfl
  | cons r rs ih =>
    cases e with
    | zero =>
      cases e' with
      | zero =>
        have hb : b' ≠ b := by
          intro hb; exact h (by simp [hb])
        simp only [setCell, getCell_cons_zero]
        rw [List.getD_eq_getElem?_getD, List.getD_eq_getElem?_getD,
          List.getElem?_set_ne (by simpa using (Ne.symm hb))]
      | succ e' => rfl
    | succ e =>
      cases e' with
      | zero => rfl
      | succ e' =>
        have : (e', b') ≠ (e, b) := by
          intro he; apply h
          simp only [Prod.mk.injEq] at he ⊢
          exact ⟨congrArg Nat.succ he.1, he.2⟩
        simpa only [setCell, getCell_cons_succ] using ih e e' this

theorem writeList_nil (d : List (List (Option α))) : writeList d [] = d := rfl

theorem writeList_cons (d : List (List (Option α))) (w : (Nat × Nat) × α)
    (ws : List ((Nat × Nat) × α)) :
    writeList d (w :: ws) = writeList (setCell d w.1.1 w.1.2 w.2) ws := rfl

theorem writeList_shape (d : List (List (Option α))) (ws : List ((Nat × Nat) × α)) :
    gridShape (writeList d ws) = gridShape d := by
  induction ws generalizing d with
  | nil => rfl
  | cons w ws ih => rw [writeList_cons, ih, setCell_shape]

theorem getCell_writeList_notmem (d : List (List (Option α))) (ws : List ((Nat × Nat) × α))
    (e b : Nat) (h : (e, b) ∉ ws.map Prod.fst) :
    getCell (writeList d ws) e b = getCell d e b := by
  induction ws generalizing d with
  | nil => rfl
  | cons w ws ih =>
    simp only [List.map_cons, List.mem_cons, not_or] at h
    rw [writeList_cons, ih _ h.2, getCell_setCell_other _ _ _ _ _ _ (by exact h.1)]

theorem getCell_writeList_mem (d : List (List (Option α))) (ws : List ((Nat × Nat) × α))
    (e b : Nat) (v : α) (hn : (ws.map Prod.fst).Nodup) (hm : ((e, b), v) ∈ ws)
    (hr : inRange d e b) : getCell (writeList d ws) e b = some v := by
  induction ws generalizing d with
  | nil => simp at hm
  | cons w ws ih =>
    simp only [List.map_cons, List.nodup_cons] at hn
    rcases List.mem_cons.mp hm with hw | hw
    · subst hw
      rw [writeList_cons]
      rw [getCell_writeList_notmem _ _ _ _ (by simpa using hn.1)]
      exact getCell_setCell_self d e b v hr
    · rw [writeList_cons]
      refine ih _ hn.2 hw ?_
      simpa only [inRange, setCell_shape] using hr

theorem inRange_of_getCell_eq_some (d : List (List (Option α))) (e b : Nat) (v : α)
    (h : getCell d e b = some v) : inRange d e b := by
  induction d generalizing e with
  | nil => simp [getCell] at h
  | cons r rs ih =>
    cases e with
    | zero =>
      simp only [inRange, gridShape, List.map_cons, List.getD_cons_zero]
      by_contra hb
      rw [getCell_cons_zero, List.getD_eq_default _ _ (Nat.le_of_not_lt hb)] at h
      exact Option.noConfusion h
    | succ e =>
      simpa only [inRange, gridShape, List.map_cons, List.getD_cons_succ] using
        ih e (by simpa only [getCell_cons_succ] using h)

theorem getD_map_none (row : List (Option α)) (b : Nat) :
    (row.map (fun _ => (none : Option β))).getD b none = none := by
  induction row generalizing b with
  | nil => rfl
  | cons o rest ih =>
    cases b with
    | zero => rfl
    | succ b => simpa using ih b

theorem getCell_init_data_s (ag : Agent) (e b : Nat) :
    getCell (init_data_s ag : List (List (Option α))) e b = none := by
  show getCell (ag.body_a.map _) e b = none
  induction ag.body_a generalizing e with
  | nil => rfl
  | cons r rs ih =>
    cases e with
    | zero => simpa only [List.map_cons, getCell_cons_zero] using getD_map_none r b
    | succ e => simpa only [List.map_cons, getCell_cons_succ] using ih e

theorem gridShape_init_data_s (ag : Agent) :
    gridShape (init_data_s ag : List (List (Option α))) = gridShape ag.body_a := by
  simp [gridShape, init_data_s, List.map_map, Function.comp]

theorem getD_row_eq_some_iff (row : List (Option α)) (b : Nat) (v : α) :
    row.getD b none = some v ↔ row[b]? = some (some v) := by
  rw [List.getD_eq_getElem?_getD]
  cases h : row[b]? with
  | none => simp
  | some o => cases o <;> simp

theorem getCell_eq_some_iff (g : List (List (Option α))) (e b : Nat) (v : α) :
    getCell g e b = some v ↔ ∃ row, g[e]? = some row ∧ row[b]? = some (some v) := by
  induction g generalizing e with
  | nil => simp [getCell]
  | cons r rs ih =>
    cases e with
    | zero =>
      simp only [getCell_cons_zero, List.getElem?_cons_zero, Option.some.injEq,
        exists_eq_left']
      exact getD_row_eq_some_iff r b v
    | succ e =>
      simpa only [getCell_cons_succ, List.getElem?_cons_succ] using ih e

theorem mem_rowEnum_iff (e0 b0 : Nat) (row : List (Option Body)) (e b : Nat) (body : Body) :
    ((e, b), body) ∈ rowEnum e0 b0 row ↔
      e = e0 ∧ b0 ≤ b ∧ row[b - b0]? = some (some body) := by
  induction row generalizing b0 with
  | nil => simp [rowEnum]
  | cons o rest ih =>
    cases o with
    | some body' =>
      simp only [rowEnum, List.mem_cons, Prod.mk.injEq, ih]
      constructor
      · rintro (⟨⟨he, hb⟩, hbody⟩ | ⟨he, hb, hrow⟩)
        · subst he; subst hb; subst hbody
          exact ⟨rfl, le_refl _, by simp⟩
        · refine ⟨he, Nat.le_of_succ_le hb, ?_⟩
          have hsub : b - b0 = (b - (b0 + 1)) + 1 := by omega
          rw [hsub]
          simpa using hrow
      · rintro ⟨he, hb, hrow⟩
        rcases Nat.eq_or_lt_of_le hb with hb0 | hb0
        · subst hb0
          simp only [Nat.sub_self] at hrow
          simp only [List.getElem?_cons_zero, Option.some.injEq] at hrow
          exact Or.inl ⟨⟨he, rfl⟩, hrow.symm⟩
        · refine Or.inr ⟨he, hb0, ?_⟩
          have hsub : b - b0 = (b - (b0 + 1)) + 1 := by omega
          rw [hsub] at hrow
          simpa using hrow
    | none =>
      simp only [rowEnum, ih]
      constructor
      · rintro ⟨he, hb, hrow⟩
        refine ⟨he, Nat.le_of_succ_le hb, ?_⟩
        have hsub : b - b0 = (b - (b0 + 1)) + 1 := by omega
        rw [hsub]
        simpa using hrow
      · rintro ⟨he, hb, hrow⟩
        rcases Nat.eq_or_lt_of_le hb with hb0 | hb0
        · subst hb0
          simp only [Nat.sub_self] at hrow
          simp at hrow
        · refine ⟨he, hb0, ?_⟩
          have hsub : b - b0 = (b - (b0 + 1)) + 1 := by omega
          rw [hsub] at hrow
          simpa using hrow

theorem mem_ndenumFrom_iff (e0 : Nat) (rows : List (List (Option Body))) (e b : Nat)
    (body : Body) :
    ((e, b), body) ∈ ndenumFrom e0 rows ↔
      e0 ≤ e ∧ ∃ row, rows[e - e0]? = some row ∧ row[b]? = some (some body) := by
  induction rows generalizing e0 with
  | nil => simp [ndenumFrom]
  | cons row rest ih =>
    simp only [ndenumFrom, List.mem_append, mem_rowEnum_iff, ih]
    constructor
    · rintro (⟨he, _, hrow⟩ | ⟨he, r, hr, hrow⟩)
      · subst he
        exact ⟨le_refl _, row, by simpa using hrow⟩
      · refine ⟨Nat.le_of_succ_le he, r, ?_, hrow⟩
        have hsub : e - e0 = (e - (e0 + 1)) + 1 := by omega
        rw [hsub]
        simpa using hr
    · rintro ⟨he, r, hr, hrow⟩
      rcases Nat.eq_or_lt_of_le he with he0 | he0
      · subst he0
        simp only [Nat.sub_self, List.getElem?_cons_zero, Option.some.injEq] at hr
        subst hr
        exact Or.inl ⟨rfl, Nat.zero_le _, by simpa using hrow⟩
      · refine Or.inr ⟨he0, r, ?_, hrow⟩
        have hsub : e - e0 = (e - (e0 + 1)) + 1 := by omega
        rw [hsub] at hr
        simpa using hr

theorem mem_ndenumerate_iff (g : List (List (Option Body))) (e b : Nat) (body : Body) :
    ((e, b), body) ∈ ndenumerate_nonan g ↔ getCell g e b = some body := by
  rw [ndenumerate_nonan, mem_ndenumFrom_iff, getCell_eq_some_iff]
  simp

theorem mem_rowEnum_fst (e0 b0 : Nat) (row : List (Option Body)) (x : (Nat × Nat) × Body)
    (h : x ∈ rowEnum e0 b0 row) : x.1.1 = e0 ∧ b0 ≤ x.1.2 := by
  obtain ⟨⟨e, b⟩, body⟩ := x
  have := (mem_rowEnum_iff e0 b0 row e b body).mp h
  exact ⟨this.1, this.2.1⟩

theorem rowEnum_map_fst_nodup (e0 b0 : Nat) (row : List (Option Body)) :
    ((rowEnum e0 b0 row).map Prod.fst).Nodup := by
  induction row generalizing b0 with
  | nil => simp [rowEnum]
  | cons o rest ih =>
    cases o with
    | some body =>
      simp only [rowEnum, List.map_cons, List.nodup_cons]
      refine ⟨?_, ih (b0 + 1)⟩
      intro hmem
      rcases List.mem_map.mp hmem with ⟨x, hx, hfst⟩
      have := (mem_rowEnum_fst _ _ _ _ hx).2
      rw [hfst] at this
      omega
    | none => exact ih (b0 + 1)

theorem mem_ndenumFrom_fst (e0 : Nat) (rows : List (List (Option Body)))
    (x : (Nat × Nat) × Body) (h : x ∈ ndenumFrom e0 rows) : e0 ≤ x.1.1 := by
  obtain ⟨⟨e, b⟩, body⟩ := x
  exact ((mem_ndenumFrom_iff e0 rows e b body).mp h).1

theorem ndenumFrom_map_fst_nodup (e0 : Nat) (rows : List (List (Option Body))) :
    ((ndenumFrom e0 rows).map Prod.fst).Nodup := by
  induction rows generalizing e0 with
  | nil => simp [ndenumFrom]
  | cons row rest ih =>
    simp only [ndenumFrom, List.map_append]
    rw [List.nodup_append]
    refine ⟨rowEnum_map_fst_nodup e0 0 row, ih (e0 + 1), ?_⟩
    intro c hc hc'
    rcases List.mem_map.mp hc with ⟨x, hx, hfst⟩
    rcases List.mem_map.mp hc' with ⟨y, hy, hfst'⟩
    have h1 := (mem_rowEnum_fst _ _ _ _ hx).1
    have h2 := mem_ndenumFrom_fst _ _ _ hy
    rw [hfst] at h1
    rw [hfst'] at h2
    omega

theorem ndenumerate_map_fst_nodup (g : List (List (Option Body))) :
    ((ndenumerate_nonan g).map Prod.fst).Nodup :=
  ndenumFrom_map_fst_nodup 0 g

theorem rowEnum_map_snd (e0 b0 : Nat) (row : List (Option Body)) :
    (rowEnum e0 b0 row).map Prod.snd = row.filterMap id := by
  induction row generalizing b0 with
  | nil => rfl
  | cons o rest ih =>
    cases o with
    | some body => simp [rowEnum, ih]
    | none => simp [rowEnum, ih]

theorem ndenumFrom_map_snd (e0 : Nat) (rows : List (List (Option Body))) :
    (ndenumFrom e0 rows).map Prod.snd = (rows.map (fun row => row.filterMap id)).flatten := by
  induction rows generalizing e0 with
  | nil => rfl
  | cons row rest ih => simp [ndenumFrom, rowEnum_map_snd, ih]

theorem nanflat_eq_ndenum_snd (ag : Agent) :
    ag.nanflat_body_a = (ndenumerate_nonan ag.body_a).map Prod.snd :=
  (ndenumFrom_map_snd 0 ag.body_a).symm


/-! ## Infrastructure: body attributes and the load loop -/

theorem getattrB_setattrB_self (l : List (String × NumVal)) (k : String) (v : NumVal) :
    getattrB (setattrB l k v) k = some v := by
  induction l with
  | nil => simp [setattrB, getattrB]
  | cons p rest ih =>
    by_cases h : p.1 = k
    · simp [setattrB, h, getattrB]
    · simp only [setattrB, if_neg h, getattrB]
      exact ih

theorem getattrB_setattrB_other (l : List (String × NumVal)) (k k' : String) (v : NumVal)
    (h : k' ≠ k) : getattrB (setattrB l k v) k' = getattrB l k' := by
  induction l with
  | nil =>
    simp only [setattrB, getattrB]
    rw [if_neg (fun hk => h (Eq.symm hk))]
  | cons p rest ih =>
    by_cases hp : p.1 = k
    · simp only [setattrB, if_pos hp, getattrB]
      rw [if_neg (fun hk => h hk.symm), if_neg (by rw [hp]; exact fun hk => h hk.symm)]
    · simp only [setattrB, if_neg hp, getattrB]
      by_cases hk : p.1 = k'
      · rw [if_pos hk, if_pos hk]
      · rw [if_neg hk, if_neg hk]
        exact ih


theorem getattrB_loadLoop_notmem (vs : List (String × Sched)) (b : List (String × NumVal))
    (n : String) (h : n ∉ schedTargets vs) :
    getattrB (vs.foldl loadStep b) n = getattrB b n := by
  induction vs generalizing b with
  | nil => rfl
  | cons p rest ih =>
    rw [List.foldl_cons]
    by_cases hc : strEndsWith p.1 schedSuffix = true
    · cases hv : p.2.end_val with
      | none =>
        have hstep : loadStep b p = b := by simp [loadStep, hc, hv]
        have htgt : schedTargets (p :: rest) = schedTargets rest := by
          simp [schedTargets, List.filter_cons, hc, hv]
        rw [hstep]
        exact ih b (by rw [htgt] at h; exact h)
      | some v =>
        have hstep : loadStep b p = setattrB b (pyReplace p.1 schedSuffix emptyString) v := by
          simp [loadStep, hc, hv]
        have htgt : schedTargets (p :: rest)
            = pyReplace p.1 schedSuffix emptyString :: schedTargets rest := by
          simp [schedTargets, List.filter_cons, hc, hv]
        rw [htgt, List.mem_cons, not_or] at h
        rw [hstep, ih _ h.2, getattrB_setattrB_other _ _ _ _ h.1]
    · have hstep : loadStep b p = b := by simp [loadStep, hc]
      have htgt : schedTargets (p :: rest) = schedTargets rest := by
        simp [schedTargets, List.filter_cons, hc]
      rw [hstep]
      exact ih b (by rw [htgt] at h; exact h)

theorem getattrB_loadLoop_mem (vs : List (String × Sched)) (b : List (String × NumVal))
    (k : String) (sch : Sched) (v : NumVal) (hn : (schedTargets vs).Nodup)
    (hm : (k, sch) ∈ vs) (he : strEndsWith k schedSuffix = true)
    (hv : sch.end_val = some v) :
    getattrB (vs.foldl loadStep b) (pyReplace k schedSuffix emptyString) = some v := by
  induction vs generalizing b with
  | nil => simp at hm
  | cons p rest ih =>
    rw [List.foldl_cons]
    rcases List.mem_cons.mp hm with hp | hp
    · subst hp
      have hstep : loadStep b (k, sch) = setattrB b (pyReplace k schedSuffix emptyString) v := by
        simp [loadStep, he, hv]
      have htgt : schedTargets ((k, sch) :: rest)
          = pyReplace k schedSuffix emptyString :: schedTargets rest := by
        simp [schedTargets, List.filter_cons, he, hv]
      rw [htgt, List.nodup_cons] at hn
      rw [hstep, getattrB_loadLoop_notmem rest _ _ hn.1]
      exact getattrB_setattrB_self b _ v
    · have htail : (schedTargets rest).Nodup := by
        by_cases hc : strEndsWith p.1 schedSuffix = true
        · cases hvp : p.2.end_val with
          | none =>
            have : schedTargets (p :: rest) = schedTargets rest := by
              simp [schedTargets, List.filter_cons, hc, hvp]
            rw [this] at hn; exact hn
          | some w =>
            have : schedTargets (p :: rest)
                = pyReplace p.1 schedSuffix emptyString :: schedTargets rest := by
              simp [schedTargets, List.filter_cons, hc, hvp]
            rw [this, List.nodup_cons] at hn; exact hn.2
        · have : schedTargets (p :: rest) = schedTargets rest := by
            simp [schedTargets, List.filter_cons, hc]
          rw [this] at hn; exact hn
      exact ih _ htail hp

/-! ## Infrastructure: pointwise characterization of the dispatch folds -/

theorem space_act_fold_eq_writeList {σ α : Type} (ag : Agent) (act : Body → Option σ → α)
    (state_a : List (List (Option σ))) :
    (ndenumerate_nonan ag.body_a).foldl
        (fun d p => setCell d p.1.1 p.1.2 (act p.2 (getCell state_a p.1.1 p.1.2)))
        (init_data_s ag)
      = writeList (init_data_s ag)
          ((ndenumerate_nonan ag.body_a).map
            (fun p => (p.1, act p.2 (getCell state_a p.1.1 p.1.2)))) := by
  rw [writeList, List.foldl_map]

theorem getCell_space_act_fold {σ α : Type} (ag : Agent) (act : Body → Option σ → α)
    (state_a : List (List (Option σ))) (e b : Nat) :
    getCell ((ndenumerate_nonan ag.body_a).foldl
        (fun d p => setCell d p.1.1 p.1.2 (act p.2 (getCell state_a p.1.1 p.1.2)))
        (init_data_s ag)) e b
      = (getCell ag.body_a e b).map (fun body => act body (getCell state_a e b)) := by
  rw [space_act_fold_eq_writeList]
  have hcoords : (((ndenumerate_nonan ag.body_a).map
      (fun p => (p.1, act p.2 (getCell state_a p.1.1 p.1.2)))).map Prod.fst)
        = (ndenumerate_nonan ag.body_a).map Prod.fst := by
    rw [List.map_map]
    rfl
  cases hg : getCell ag.body_a e b with
  | some body =>
    have hmem : ((e, b), body) ∈ ndenumerate_nonan ag.body_a :=
      (mem_ndenumerate_iff ag.body_a e b body).mpr hg
    have hws : ((e, b), act body (getCell state_a e b))
        ∈ (ndenumerate_nonan ag.body_a).map
            (fun p => (p.1, act p.2 (getCell state_a p.1.1 p.1.2))) :=
      List.mem_map.mpr ⟨((e, b), body), hmem, rfl⟩
    have hnodup : ((((ndenumerate_nonan ag.body_a).map
        (fun p => (p.1, act p.2 (getCell state_a p.1.1 p.1.2)))).map Prod.fst)).Nodup := by
      rw [hcoords]
      exact ndenumerate_map_fst_nodup ag.body_a
    have hr : inRange (init_data_s ag : List (List (Option α))) e b := by
      simpa only [inRange, gridShape_init_data_s] using
        inRange_of_getCell_eq_some ag.body_a e b body hg
    rw [getCell_writeList_mem _ _ _ _ _ hnodup hws hr]
    rfl
  | none =>
    have hnot : (e, b) ∉ (((ndenumerate_nonan ag.body_a).map
        (fun p => (p.1, act p.2 (getCell state_a p.1.1 p.1.2)))).map Prod.fst) := by
      rw [hcoords]
      intro hmem
      rcases List.mem_map.mp hmem with ⟨x, hxW, hfst⟩
      obtain ⟨⟨e', b'⟩, body⟩ := x
      have hx : ((e, b), body) ∈ ndenumerate_nonan ag.body_a := by
        rw [← hfst]; exact hxW
      rw [(mem_ndenumerate_iff ag.body_a e b body).mp hx] at hg
      exact Option.noConfusion hg
    rw [getCell_writeList_notmem _ _ _ _ hnot, getCell_init_data_s]
    rfl

theorem nanflat_zip_coords {α : Type} (ag : Agent) (flat : List α) (hc : ag.coherent)
    (hlen : (ndenumerate_nonan ag.body_a).length ≤ flat.length) :
    (ag.nanflat_body_a.zip flat).map (fun p => (p.1.e, p.1.b))
      = (ndenumerate_nonan ag.body_a).map Prod.fst := by
  rw [nanflat_eq_ndenum_snd, List.zip_map_left, List.map_map]
  have h1 : ∀ q ∈ (ndenumerate_nonan ag.body_a).zip flat,
      ((fun p => (p.1.e, p.1.b)) ∘ Prod.map Prod.snd id) q = q.1.1 := by
    intro q hq
    have hcq := hc q.1 (List.of_mem_zip hq).1
    show (q.1.2.e, q.1.2.b) = q.1.1
    rw [hcq.1, hcq.2]
  rw [List.map_congr_left h1]
  have h2 : (fun (q : ((Nat × Nat) × Body) × α) => q.1.1)
      = Prod.fst ∘ (Prod.fst : ((Nat × Nat) × Body) × α → (Nat × Nat) × Body) := rfl
  rw [h2, ← List.map_map, List.map_fst_zip _ _ hlen]

theorem nanflat_fold_eq_writeList {α : Type} (ag : Agent) (data_name : String)
    (flat : List α) :
    nanflat_to_data_a ag data_name flat
      = writeList (init_data_s ag)
          ((ag.nanflat_body_a.zip flat).map (fun p => ((p.1.e, p.1.b), p.2))) := by
  rw [nanflat_to_data_a, writeList, List.foldl_map]


/-! ## Claims -/

/-- C1: when the process-wide lab mode is an evaluation mode, the
abstract-level train body short-circuits to the np.nan sentinel instead of
raising; a concrete subclass train (spec-modelled wrapper) returns np.nan
without invoking its training step, whatever that step is; and space_train
returns np.nan for every agent and every subclass train function without
invoking it (the result is independent of `train_one`), leaving `self.body`
as it was. -/
theorem C1_eval_mode_train_suppressed :
    train true = Except.ok NumVal.nan
    ∧ (∀ impl : Unit → Except PyError NumVal, subclass_train true impl = Except.ok NumVal.nan)
    ∧ (∀ (ag : Agent) (train_one : Body → NumVal) (self_body : Body),
        space_train ag true train_one self_body = Except.ok (TrainOut.nan, self_body)) :=
  ⟨rfl, fun _ => rfl, fun _ _ _ => rfl⟩

/-- C2 is false as stated: in an evaluation lab mode, space_train returns
np.nan before the body loop runs, so the current-body pointer is left exactly
as it was instead of being restored to the first flattened body. Concretely,
with the pointer at bodyB on entry, after space_train it is still bodyB,
while the first element of the flattened body list is bodyA, and the two
differ. -/
theorem C2_counterexample :
    space_train agentAB true (fun _ => NumVal.num 0) bodyB = Except.ok (TrainOut.nan, bodyB)
    ∧ agentAB.nanflat_body_a = [bodyA, bodyB]
    ∧ bodyB ≠ bodyA := ⟨rfl, rfl, by decide⟩

/-- C2 (amended): after space_act, space_sample and space_update, and after
space_train outside evaluation modes, the current-body pointer equals the
first element of the flattened body list, however many bodies exist; the one
exception is space_train in an evaluation mode, whose early return leaves the
pointer unchanged. -/
theorem C2_dispatch_restores_body (ag : Agent) (b0 : Body) (rest : List Body)
    (h : ag.nanflat_body_a = b0 :: rest) :
    (∀ (σ α : Type) (act : Body → Option σ → α) (state_a : List (List (Option σ))),
        (space_act ag act state_a).map Prod.snd = Except.ok b0)
    ∧ (∀ (ε δ : Type) (sample : Body → List ε) (dev : δ),
        (space_sample ag sample dev).map Prod.snd = Except.ok b0)
    ∧ (∀ (train_one : Body → NumVal) (self_body : Body),
        (space_train ag false train_one self_body).map Prod.snd = Except.ok b0)
    ∧ (∀ update_one : Body → NumVal,
        (space_update ag update_one).map Prod.snd = Except.ok b0)
    ∧ (∀ (train_one : Body → NumVal) (self_body : Body),
        space_train ag true train_one self_body = Except.ok (TrainOut.nan, self_body)) := by
  refine ⟨?_, ?_, ?_, ?_, fun _ _ => rfl⟩
  · intro σ α act state_a
    simp [space_act, h, Except.map]
  · intro ε δ sample dev
    simp [space_sample, h, Except.map]
  · intro train_one self_body
    simp [space_train, h, Except.map]
  · intro update_one
    simp [space_update, h, Except.map]

/-- Witness for the amended C2 at the concrete two-body agent. -/
theorem C2_dispatch_restores_body_witness :
    agentAB.nanflat_body_a = bodyA :: [bodyB]
    ∧ (space_act agentAB (fun body _ => body.bid) ([[none, none, none]] : List (List (Option Nat)))).map
        Prod.snd = Except.ok bodyA
    ∧ (space_sample agentAB (fun _ => ([] : List Int)) devCuda).map Prod.snd = Except.ok bodyA
    ∧ (space_train agentAB false (fun _ => NumVal.num 0) bodyB).map Prod.snd = Except.ok bodyA
    ∧ (space_update agentAB (fun _ => NumVal.num 1)).map Prod.snd = Except.ok bodyA :=
  ⟨rfl,
    (C2_dispatch_restores_body agentAB bodyA [bodyB] rfl).1 Nat Nat _ _,
    (C2_dispatch_restores_body agentAB bodyA [bodyB] rfl).2.1 Int String _ devCuda,
    (C2_dispatch_restores_body agentAB bodyA [bodyB] rfl).2.2.1 _ bodyB,
    (C2_dispatch_restores_body agentAB bodyA [bodyB] rfl).2.2.2.1 _⟩

/-- C4: with no `net_names` attribute, save and load make no call to the net
persistence collaborator and only log (they are total, so they raise
nothing); with `net_names` present, save delegates to
net_util.save_algorithm passing the whole algorithm instance and the
checkpoint tag, and load delegates to net_util.load_algorithm. -/
theorem C4_save_load_delegation (alg : AlgLC) (ckpt : Option String) :
    (alg.net_names = none →
        (save alg ckpt).calls = [] ∧ (save alg ckpt).logs = [noSaveMsg]
        ∧ (load alg).calls = [] ∧ (load alg).logs = [noLoadMsg])
    ∧ (∀ ns, alg.net_names = some ns →
        (save alg ckpt).calls = [NetCall.save_algorithm alg ckpt]
        ∧ (load alg).calls = [NetCall.load_algorithm alg]) := by
  constructor
  · intro h
    refine ⟨?_, ?_, ?_, ?_⟩ <;> simp [save, load, h]
  · intro ns h
    exact ⟨by simp [save, h], by simp [load, h]⟩

/-- Witness for C4 at a netless and a net-declaring concrete algorithm. -/
theorem C4_save_load_delegation_witness :
    algNoNets.net_names = none
    ∧ (save algNoNets none).calls = []
    ∧ (load algNoNets).calls = []
    ∧ algWithNets.net_names = some [qNetName]
    ∧ (save algWithNets (some ckptTag)).calls = [NetCall.save_algorithm algWithNets (some ckptTag)]
    ∧ (load algWithNets).calls = [NetCall.load_algorithm algWithNets] :=
  ⟨rfl,
    ((C4_save_load_delegation algNoNets none).1 rfl).1,
    ((C4_save_load_delegation algNoNets none).1 rfl).2.2.1,
    rfl,
    ((C4_save_load_delegation algWithNets (some ckptTag)).2 [qNetName] rfl).1,
    ((C4_save_load_delegation algWithNets (some ckptTag)).2 [qNetName] rfl).2⟩

/-- C5: calling post_init_nets without a `net_names` attribute trips the
assertion (AssertionError, fatal); with `net_names` present the hook never
raises on its own account: in an evaluation-like mode it logs and loads the
models via load(), otherwise it only logs that the networks were freshly
initialized. -/
theorem C5_post_init_nets_contract (alg : AlgLC) (in_eval : Bool) (lab_mode : String) :
    (alg.net_names = none →
        post_init_nets alg in_eval lab_mode = Except.error PyError.assertionError)
    ∧ (∀ ns, alg.net_names = some ns →
        (in_eval = true →
            post_init_nets alg in_eval lab_mode
              = Except.ok ⟨(load alg).alg, (load alg).calls,
                  (loadedMsg ++ lab_mode) :: (load alg).logs⟩)
        ∧ (in_eval = false →
            post_init_nets alg in_eval lab_mode
              = Except.ok ⟨alg, [], [initializedMsg ++ lab_mode]⟩)) := by
  constructor
  · intro h
    simp [post_init_nets, h]
  · intro ns h
    constructor
    · intro he
      simp [post_init_nets, h, he]
    · intro he
      simp [post_init_nets, h, he]

/-- Witness for C5: the assertion fires on the netless algorithm; with a
declared net, evaluation mode loads and logs, training mode only logs. -/
theorem C5_post_init_nets_contract_witness :
    algNoNets.net_names = none
    ∧ post_init_nets algNoNets true evalLabMode = Except.error PyError.assertionError
    ∧ algWithNets.net_names = some [qNetName]
    ∧ post_init_nets algWithNets true evalLabMode
        = Except.ok ⟨(load algWithNets).alg, (load algWithNets).calls,
            (loadedMsg ++ evalLabMode) :: (load algWithNets).logs⟩
    ∧ post_init_nets algWithNets false evalLabMode
        = Except.ok ⟨algWithNets, [], [initializedMsg ++ evalLabMode]⟩ :=
  ⟨rfl,
    (C5_post_init_nets_contract algNoNets true evalLabMode).1 rfl,
    rfl,
    ((C5_post_init_nets_contract algWithNets true evalLabMode).2 [qNetName] rfl).1 rfl,
    ((C5_post_init_nets_contract algWithNets false evalLabMode).2 [qNetName] rfl).2 rfl⟩

/-- C3 is false as stated: Python replace removes every occurrence of the
scheduler suffix, not only the final one. The instance attribute
eps_scheduler_scheduler ends with the suffix and has end_val 7, so the claim
says the body attribute obtained by stripping the suffix, eps_scheduler,
becomes 7; instead the code writes 7 to eps (both occurrences removed) and
leaves eps_scheduler at its prior value 1. -/
theorem C3_counterexample :
    strEndsWith epsSchedSchedName schedSuffix = true
    ∧ getattrB (load algSchedCex).alg.body epsSchedName = some (NumVal.num 1)
    ∧ NumVal.num 1 ≠ NumVal.num 7
    ∧ getattrB (load algSchedCex).alg.body epsName = some (NumVal.num 7) :=
  ⟨by decide, by decide, by decide, by decide⟩

/-- C3 (amended): after load() returns, whether or not any networks were
loaded, every instance attribute whose name ends with the scheduler suffix
and whose value exposes end_val = v results in the body attribute named by
removing every occurrence of the suffix from the attribute name (Python
replace semantics; for a single occurrence this is suffix stripping) being
equal to v, overriding whatever value existed before load, provided the
written target names are pairwise distinct (otherwise the last writer wins);
body attributes that are not such a target, in particular those of scheduler
attributes lacking end_val, are unchanged. -/
theorem C3_load_pins_decay_variables (alg : AlgLC)
    (hn : (schedTargets alg.vars).Nodup) :
    (∀ k sch v, (k, sch) ∈ alg.vars → strEndsWith k schedSuffix = true →
        sch.end_val = some v →
        getattrB (load alg).alg.body (pyReplace k schedSuffix emptyString) = some v)
    ∧ (∀ n, n ∉ schedTargets alg.vars →
        getattrB (load alg).alg.body n = getattrB alg.body n) := by
  constructor
  · intro k sch v hm he hv
    show getattrB (alg.vars.foldl loadStep alg.body) _ = some v
    exact getattrB_loadLoop_mem alg.vars alg.body k sch v hn hm he hv
  · intro n hmem
    show getattrB (alg.vars.foldl loadStep alg.body) n = getattrB alg.body n
    exact getattrB_loadLoop_notmem alg.vars alg.body n hmem

/-- Witness for the amended C3 at a concrete algorithm: lr_scheduler has
end_val 7, so after load the body attribute lr is 7 (it was 1), while the
unrelated body attribute eps keeps its prior value 5. -/
theorem C3_load_pins_decay_variables_witness :
    (schedTargets algSchedOk.vars).Nodup
    ∧ getattrB (load algSchedOk).alg.body (pyReplace lrSchedName schedSuffix emptyString)
        = some (NumVal.num 7)
    ∧ getattrB (load algSchedOk).alg.body epsName = some (NumVal.num 5)
    ∧ getattrB algSchedOk.body lrName = some (NumVal.num 1) :=
  ⟨by decide,
    (C3_load_pins_decay_variables algSchedOk (by decide)).1 lrSchedName ⟨some (NumVal.num 7)⟩
      (NumVal.num 7) (by decide) (by decide) rfl,
    ((C3_load_pins_decay_variables algSchedOk (by decide)).2 epsName (by decide)).trans
      (by decide),
    by decide⟩

/-- C6: space_act writes, into a freshly allocated container, exactly one
action at every (environment, body) coordinate holding a body, computed by
act with that body bound and the state at that coordinate; coordinates with
no body stay unset; and when the space holds exactly one body, the result is
the direct act value at that one coordinate and nothing else. -/
theorem C6_space_act_populates {σ α : Type} (ag : Agent) (act : Body → Option σ → α)
    (state_a : List (List (Option σ))) (b0 : Body) (rest : List Body)
    (h : ag.nanflat_body_a = b0 :: rest) :
    (space_act ag act state_a).map Prod.snd = Except.ok b0
    ∧ ∀ out, space_act ag act state_a = Except.ok out →
        ((∀ e b, getCell out.1 e b
            = (getCell ag.body_a e b).map (fun body => act body (getCell state_a e b)))
         ∧ (∀ e0 c0 body, ndenumerate_nonan ag.body_a = [((e0, c0), body)] →
             ∀ e b, getCell out.1 e b
               = if e = e0 ∧ b = c0 then some (act body (getCell state_a e0 c0)) else none)) := by
  constructor
  · simp [space_act, h, Except.map]
  · intro out hout
    have hout1 : out.1 = (ndenumerate_nonan ag.body_a).foldl
        (fun d p => setCell d p.1.1 p.1.2 (act p.2 (getCell state_a p.1.1 p.1.2)))
        (init_data_s ag) := by
      simp only [space_act, h] at hout
      cases hout
      rfl
    have hpt : ∀ e b, getCell out.1 e b
        = (getCell ag.body_a e b).map (fun body => act body (getCell state_a e b)) := by
      intro e b
      rw [hout1]
      exact getCell_space_act_fold ag act state_a e b
    refine ⟨hpt, ?_⟩
    intro e0 c0 body hsing e b
    by_cases hcoord : e = e0 ∧ b = c0
    · obtain ⟨he, hb⟩ := hcoord
      subst he; subst hb
      have hmem : ((e, b), body) ∈ ndenumerate_nonan ag.body_a := by
        rw [hsing]; exact List.mem_singleton.mpr rfl
      rw [if_pos ⟨rfl, rfl⟩, hpt e b, (mem_ndenumerate_iff ag.body_a e b body).mp hmem]
      rfl
    · rw [if_neg hcoord, hpt e b]
      cases hg : getCell ag.body_a e b with
      | none => rfl
      | some body' =>
        have hmem : ((e, b), body') ∈ ndenumerate_nonan ag.body_a :=
          (mem_ndenumerate_iff ag.body_a e b body').mpr hg
        rw [hsing, List.mem_singleton] at hmem
        have he : e = e0 := congrArg (Prod.fst ∘ Prod.fst) hmem
        have hb : b = c0 := congrArg (Prod.snd ∘ Prod.fst) hmem
        exact absurd ⟨he, hb⟩ hcoord


/-- Witness for C6: on the two-body agent the populated and the skipped
coordinates are as characterized, and on a single-body agent the container is
the direct act value at that coordinate and unset elsewhere. -/
theorem C6_space_act_populates_witness :
    agentAB.nanflat_body_a = bodyA :: [bodyB]
    ∧ space_act agentAB actBid stateAB
        = Except.ok (([[some 10, some 120, none]] : List (List (Option Nat))), bodyA)
    ∧ getCell ([[some 10, some 120, none]] : List (List (Option Nat))) 0 1
        = (getCell agentAB.body_a 0 1).map (fun body => actBid body (getCell stateAB 0 1))
    ∧ getCell ([[some 10, some 120, none]] : List (List (Option Nat))) 0 2
        = (getCell agentAB.body_a 0 2).map (fun body => actBid body (getCell stateAB 0 2))
    ∧ agentSingle.nanflat_body_a = bodyB :: []
    ∧ space_act agentSingle actBid stateAB
        = Except.ok (([[none, some 120]] : List (List (Option Nat))), bodyB)
    ∧ getCell ([[none, some 120]] : List (List (Option Nat))) 0 1
        = (if 0 = 0 ∧ 1 = 1 then some (actBid bodyB (getCell stateAB 0 1)) else none)
    ∧ getCell ([[none, some 120]] : List (List (Option Nat))) 0 0
        = (if 0 = 0 ∧ 0 = 1 then some (actBid bodyB (getCell stateAB 0 1)) else none) :=
  ⟨rfl, rfl,
    ((C6_space_act_populates agentAB actBid stateAB bodyA [bodyB] rfl).2
        ([[some 10, some 120, none]], bodyA) rfl).1 0 1,
    ((C6_space_act_populates agentAB actBid stateAB bodyA [bodyB] rfl).2
        ([[some 10, some 120, none]], bodyA) rfl).1 0 2,
    rfl, rfl,
    ((C6_space_act_populates agentSingle actBid stateAB bodyB [] rfl).2
        ([[none, some 120]], bodyB) rfl).2 0 1 bodyB rfl 0 1,
    ((C6_space_act_populates agentSingle actBid stateAB bodyB [] rfl).2
        ([[none, some 120]], bodyB) rfl).2 0 1 bodyB rfl 0 0⟩

/-- C7: nanflat_to_data_a produces a container shaped like the
(environment x body) space in which each flattened body datum appears at that
body coordinate, and every coordinate with no corresponding body stays unset
(the no-value sentinel, not zero). The agent is assumed coherent (each stored
body carries its own coordinates) and the flat data list matched in length to
the flattened body list, as the callers guarantee. -/
theorem C7_nanflat_reshape {α : Type} (ag : Agent) (data_name : String) (flat : List α)
    (hc : ag.coherent) (hlen : flat.length = ag.nanflat_body_a.length) :
    (∀ p ∈ ag.nanflat_body_a.zip flat,
        getCell (nanflat_to_data_a ag data_name flat) p.1.e p.1.b = some p.2)
    ∧ (∀ e b, getCell ag.body_a e b = none →
        getCell (nanflat_to_data_a ag data_name flat) e b = none) := by
  have hlen' : (ndenumerate_nonan ag.body_a).length ≤ flat.length := by
    rw [hlen, nanflat_eq_ndenum_snd, List.length_map]
  have hcoords : ((ag.nanflat_body_a.zip flat).map
          (fun p => ((p.1.e, p.1.b), p.2))).map Prod.fst
        = (ndenumerate_nonan ag.body_a).map Prod.fst := by
    rw [List.map_map]
    exact nanflat_zip_coords ag flat hc hlen'
  constructor
  · intro p hp
    have hws : ((p.1.e, p.1.b), p.2)
        ∈ (ag.nanflat_body_a.zip flat).map (fun p => ((p.1.e, p.1.b), p.2)) :=
      List.mem_map.mpr ⟨p, hp, rfl⟩
    have hbody : p.1 ∈ ag.nanflat_body_a := (List.of_mem_zip hp).1
    rw [nanflat_eq_ndenum_snd] at hbody
    rcases List.mem_map.mp hbody with ⟨x, hxW, hx2⟩
    have hcx := hc x hxW
    have hgx : getCell ag.body_a x.1.1 x.1.2 = some x.2 := by
      obtain ⟨⟨e', b'⟩, body⟩ := x
      exact (mem_ndenumerate_iff ag.body_a e' b' body).mp hxW
    have hg : getCell ag.body_a p.1.e p.1.b = some p.1 := by
      rw [← hx2, hcx.1, hcx.2, hgx]
    have hr : inRange (init_data_s ag : List (List (Option α))) p.1.e p.1.b := by
      simpa only [inRange, gridShape_init_data_s] using
        inRange_of_getCell_eq_some ag.body_a p.1.e p.1.b p.1 hg
    have hnodup : (((ag.nanflat_body_a.zip flat).map
        (fun p => ((p.1.e, p.1.b), p.2))).map Prod.fst).Nodup := by
      rw [hcoords]
      exact ndenumerate_map_fst_nodup ag.body_a
    rw [nanflat_fold_eq_writeList]
    exact getCell_writeList_mem _ _ _ _ _ hnodup hws hr
  · intro e b hg
    have hnot : (e, b) ∉ ((ag.nanflat_body_a.zip flat).map
        (fun p => ((p.1.e, p.1.b), p.2))).map Prod.fst := by
      rw [hcoords]
      intro hmem
      rcases List.mem_map.mp hmem with ⟨x, hxW, hfst⟩
      obtain ⟨⟨e', b'⟩, body⟩ := x
      have hx : ((e, b), body) ∈ ndenumerate_nonan ag.body_a := by
        rw [← hfst]; exact hxW
      rw [(mem_ndenumerate_iff ag.body_a e b body).mp hx] at hg
      exact Option.noConfusion hg
    rw [nanflat_fold_eq_writeList, getCell_writeList_notmem _ _ _ _ hnot, getCell_init_data_s]

/-- Witness for C7 on the two-body agent: the two flat data land at the
coordinates of the two bodies; the empty coordinate (0, 2) stays unset. -/
theorem C7_nanflat_reshape_witness :
    agentAB.coherent
    ∧ ([NumVal.num 3, NumVal.num 4] : List NumVal).length = agentAB.nanflat_body_a.length
    ∧ getCell (nanflat_to_data_a agentAB lossName [NumVal.num 3, NumVal.num 4])
        bodyA.e bodyA.b = some (NumVal.num 3)
    ∧ getCell (nanflat_to_data_a agentAB lossName [NumVal.num 3, NumVal.num 4])
        bodyB.e bodyB.b = some (NumVal.num 4)
    ∧ getCell (nanflat_to_data_a agentAB lossName [NumVal.num 3, NumVal.num 4]) 0 2 = none :=
  ⟨by unfold Agent.coherent; decide, rfl,
    (C7_nanflat_reshape agentAB lossName [NumVal.num 3, NumVal.num 4]
      (by unfold Agent.coherent; decide) rfl).1 (bodyA, NumVal.num 3) (by decide),
    (C7_nanflat_reshape agentAB lossName [NumVal.num 3, NumVal.num 4]
      (by unfold Agent.coherent; decide) rfl).1 (bodyB, NumVal.num 4) (by decide),
    (C7_nanflat_reshape agentAB lossName [NumVal.num 3, NumVal.num 4]
      (by unfold Agent.coherent; decide) rfl).2 0 2 rfl⟩

/-- C8: space_sample samples one batch per body in flattened-list order,
concatenates them preserving per-body order, and converts the combined batch
with the shared net device and the episodic flag of the restored first body;
for batch sizes 3 and 5 the combined batch has size 8 with body-0 entries
before body-1 entries, in intra-body order. -/
theorem C8_space_sample_concat {ε δ : Type} (ag : Agent) (sample : Body → List ε) (dev : δ)
    (b0 : Body) (rest : List Body) (h : ag.nanflat_body_a = b0 :: rest) :
    space_sample ag sample dev
      = Except.ok (to_torch_batch (concat_batches ((b0 :: rest).map sample)) dev
          b0.memory.is_episodic, b0)
    ∧ (∀ b1, rest = [b1] → (sample b0).length = 3 → (sample b1).length = 5 →
        (concat_batches (ag.nanflat_body_a.map sample)).length = 8
        ∧ (∀ j, j < 3 → (concat_batches (ag.nanflat_body_a.map sample))[j]? = (sample b0)[j]?)
        ∧ (∀ j, j < 5 →
            (concat_batches (ag.nanflat_body_a.map sample))[3 + j]? = (sample b1)[j]?)) := by
  constructor
  · simp [space_sample, h]
  · intro b1 hrest h3 h5
    subst hrest
    rw [h]
    have hcc : concat_batches ([b0, b1].map sample) = sample b0 ++ sample b1 := by
      simp [concat_batches]
    rw [hcc]
    refine ⟨by simp [h3, h5], ?_, ?_⟩
    · intro j hj
      exact List.getElem?_append_left (by rw [h3]; exact hj)
    · intro j hj
      rw [List.getElem?_append_right (by rw [h3]; omega), h3, Nat.add_sub_cancel_left]


/-- Witness for C8 on the two-body agent with batch sizes 3 and 5. -/
theorem C8_space_sample_concat_witness :
    agentAB.nanflat_body_a = bodyA :: [bodyB]
    ∧ (sampleC8 bodyA).length = 3
    ∧ (sampleC8 bodyB).length = 5
    ∧ space_sample agentAB sampleC8 devCuda
        = Except.ok (to_torch_batch (concat_batches ([bodyA, bodyB].map sampleC8)) devCuda
            bodyA.memory.is_episodic, bodyA)
    ∧ (concat_batches (agentAB.nanflat_body_a.map sampleC8)).length = 8
    ∧ (concat_batches (agentAB.nanflat_body_a.map sampleC8))[1]? = (sampleC8 bodyA)[1]?
    ∧ (concat_batches (agentAB.nanflat_body_a.map sampleC8))[3 + 2]? = (sampleC8 bodyB)[2]? :=
  ⟨rfl, rfl, rfl,
    (C8_space_sample_concat agentAB sampleC8 devCuda bodyA [bodyB] rfl).1,
    ((C8_space_sample_concat agentAB sampleC8 devCuda bodyA [bodyB] rfl).2
        bodyB rfl rfl rfl).1,
    ((C8_space_sample_concat agentAB sampleC8 devCuda bodyA [bodyB] rfl).2
        bodyB rfl rfl rfl).2.1 1 (by decide),
    ((C8_space_sample_concat agentAB sampleC8 devCuda bodyA [bodyB] rfl).2
        bodyB rfl rfl rfl).2.2 2 (by decide)⟩

/-- C10: the episodic flag space_sample uses to convert the whole combined
batch is the one of the memory of the first flattened body (the restored
default current body), whatever the flags of the other contributing bodies
are. -/
theorem C10_episodic_flag_from_first_body {ε δ : Type} (ag : Agent)
    (sample : Body → List ε) (dev : δ) (b0 : Body) (rest : List Body)
    (h : ag.nanflat_body_a = b0 :: rest) :
    ∀ out, space_sample ag sample dev = Except.ok out →
      out.1.episodic = b0.memory.is_episodic := by
  intro out hout
  have heq : space_sample ag sample dev
      = Except.ok (to_torch_batch (concat_batches ((b0 :: rest).map sample)) dev
          b0.memory.is_episodic, b0) := by
    simp [space_sample, h]
  rw [heq] at hout
  cases hout
  rfl

/-- Witness for C10 on the two-body agent whose bodies disagree on
episodicness: the flag of bodyA (episodic) decides, not the flag of bodyB. -/
theorem C10_episodic_flag_from_first_body_witness :
    agentAB.nanflat_body_a = bodyA :: [bodyB]
    ∧ bodyB.memory.is_episodic ≠ bodyA.memory.is_episodic
    ∧ space_sample agentAB (fun _ => ([] : List Int)) devCuda
        = Except.ok (to_torch_batch ([] : List Int) devCuda bodyA.memory.is_episodic, bodyA)
    ∧ (to_torch_batch ([] : List Int) devCuda bodyA.memory.is_episodic,
        bodyA).1.episodic = bodyA.memory.is_episodic :=
  ⟨rfl, by decide, rfl,
    C10_episodic_flag_from_first_body agentAB (fun _ => ([] : List Int)) devCuda bodyA [bodyB]
      rfl (to_torch_batch ([] : List Int) devCuda bodyA.memory.is_episodic, bodyA) rfl⟩

/-- C9: after the constructor runs, net_spec always exists (the net sub-spec,
or Python None when the key is absent), while memory_spec exists exactly when
the agent spec holds a truthy memory value: with the key absent, or present
but falsy, the attribute is never set (so reading it raises AttributeError),
an asymmetry between the two optional sub-specs. -/
theorem C9_optional_subspec_asymmetry (agent_spec : List (String × SpecVal)) (r : AlgInit)
    (h : algorithmInit agent_spec = Except.ok r) :
    (dictGet agent_spec netKey = none → r.net_spec = SpecVal.pynone)
    ∧ (∀ v, dictGet agent_spec netKey = some v → r.net_spec = v)
    ∧ (r.memory_spec.isSome = (psGet agent_spec memoryKey).truthy)
    ∧ (dictGet agent_spec memoryKey = none → r.memory_spec = none)
    ∧ (∀ v, dictGet agent_spec memoryKey = some v → v.truthy = false → r.memory_spec = none)
    ∧ (∀ v, dictGet agent_spec memoryKey = some v → v.truthy = true →
        r.memory_spec = some v) := by
  cases h1 : dictGet agent_spec algorithmKey with
  | none => simp [algorithmInit, h1] at h
  | some aspec =>
    cases h2 : pySubscript aspec nameKey with
    | error err => simp [algorithmInit, h1, h2] at h
    | ok nm =>
      simp only [algorithmInit, h1, h2, Except.ok.injEq] at h
      have hr : r = ⟨aspec, nm, (dictGet agent_spec netKey).getD SpecVal.pynone,
          if (psGet agent_spec memoryKey).truthy then dictGet agent_spec memoryKey
          else none⟩ := h.symm
      subst hr
      refine ⟨?_, ?_, ?_, ?_, ?_, ?_⟩
      · intro hnet
        show (dictGet agent_spec netKey).getD SpecVal.pynone = SpecVal.pynone
        rw [hnet]
        rfl
      · intro v hnet
        show (dictGet agent_spec netKey).getD SpecVal.pynone = v
        rw [hnet]
        rfl
      · show (if (psGet agent_spec memoryKey).truthy then dictGet agent_spec memoryKey
            else none).isSome = (psGet agent_spec memoryKey).truthy
        by_cases ht : (psGet agent_spec memoryKey).truthy = true
        · rw [if_pos ht, ht]
          cases hm : dictGet agent_spec memoryKey with
          | none => simp [psGet, hm, SpecVal.truthy] at ht
          | some v => rfl
        · have ht' : (psGet agent_spec memoryKey).truthy = false := by
            simpa using ht
          rw [if_neg (by simp [ht']), ht']
          rfl
      · intro hm
        show (if (psGet agent_spec memoryKey).truthy then dictGet agent_spec memoryKey
            else none) = none
        simp [psGet, hm, SpecVal.truthy]
      · intro v hm hf
        show (if (psGet agent_spec memoryKey).truthy then dictGet agent_spec memoryKey
            else none) = none
        simp [psGet, hm, hf]
      · intro v hm ht
        show (if (psGet agent_spec memoryKey).truthy then dictGet agent_spec memoryKey
            else none) = some v
        simp [psGet, hm, ht]


/-- Witness for C9: with the net key absent, net_spec exists and is Python
None; with the memory key present but falsy, memory_spec is never set. -/
theorem C9_optional_subspec_asymmetry_witness :
    algorithmInit specC9 = Except.ok algInitC9
    ∧ dictGet specC9 netKey = none
    ∧ algInitC9.net_spec = SpecVal.pynone
    ∧ dictGet specC9 memoryKey = some (SpecVal.pydict [])
    ∧ (SpecVal.pydict []).truthy = false
    ∧ algInitC9.memory_spec = none :=
  ⟨rfl, rfl,
    (C9_optional_subspec_asymmetry specC9 algInitC9 rfl).1 rfl,
    rfl, rfl,
    (C9_optional_subspec_asymmetry specC9 algInitC9 rfl).2.2.2.2.1 (SpecVal.pydict []) rfl rfl⟩

end ConvLab
